import Mathlib

/-!
Verification of the ledger-backed record store in `src/assetTransfer.ts`
(class `AssetTransferContract`).

The World State is an ordered key-value map supplied by the host ledger:
keys are strings, values are opaque byte strings, and `getStateByRange("","")`
iterates the whole keyspace in the ledger's key order.  We embed the World
State shallowly as an association list `Store = List (String × Val)` whose
list order is the iteration order of the range scan.

Stored byte strings matter to the contract only through their length
(`VoteExists`/`ReadVote`) and through the result of `JSON.parse` (the scan
loops).  We therefore model a stored value by its parse outcome `Val`,
which distinguishes the four behaviourally different classes: bytes that
parse to a proper `Vote` record (`record`, what the contract's own writes
store), bytes that parse to JSON `null` (`jnull`, on which the tally's
`vote.CandidateID` dereference throws), bytes that parse to any other
non-record JSON value (`other`, tallied under the JS property-key string
of its `CandidateID` member, `"undefined"` when absent), and bytes that
do not parse at all (`raw`, kept as the raw string).  The byte-level
canonical encoder is modelled separately (`Json`, `encode` below) for the
encoding claims.
-/

/-- The `Vote` interface of `assetTransfer.ts`: `VoterID`, `CandidateID`,
`Station`, all strings. -/
structure Vote where
  VoterID : String
  CandidateID : String
  Station : String
deriving DecidableEq, Repr

/-- A stored World State value, modelled by its `JSON.parse` outcome:
`record v` is a byte string that parses to the record `v` (this is what
the contract's own writes store, since the canonical encoding of a vote
parses back to it); `jnull` is the byte string `null`, which parses to
JSON `null` — reading `.CandidateID` from it throws a `TypeError`;
`other c` is a byte string that parses to any other JSON value that is
not a record (such as `5`, an array, or an object lacking the vote
fields) — reading `.CandidateID` from it does not throw, and `c` is the
JS property-key string that `allResults[value.CandidateID]` uses
(`"undefined"` when the member is absent, e.g. for an empty object);
`raw s` is a byte string `s` on which `JSON.parse` throws. -/
inductive Val where
  | record : Vote → Val
  | jnull : Val
  | other : String → Val
  | raw : String → Val
deriving DecidableEq, Repr

/-- Byte length of a stored value is positive except for an empty raw
string: any byte string that `JSON.parse` accepts is non-empty.  This
models the `voteJSON.length > 0` / `voteJSON.length === 0` tests of the
source. -/
def valNonempty : Val → Bool
  | Val.record _ => true
  | Val.jnull => true
  | Val.other _ => true
  | Val.raw s => !(s == "")

/-- The World State restricted to this contract: an association list in the
ledger's range-scan iteration order. -/
abbrev Store : Type := List (String × Val)

/-- `ctx.stub.getState(key)`: the value stored at `key`, if any. -/
def getState : Store → String → Option Val
  | [], _ => none
  | e :: t, k => if e.1 = k then some e.2 else getState t k

/-- `ctx.stub.putState(key, value)`: bind `key` to `value`, replacing any
previous binding and keeping the ledger's key order. -/
def putState : Store → String → Val → Store
  | [], k, v => [(k, v)]
  | e :: t, k, v =>
    if k < e.1 then (k, v) :: e :: t
    else if k = e.1 then (k, v) :: t
    else e :: putState t k v

/-- `ctx.stub.deleteState(key)`: remove the binding for `key`. -/
def deleteState (st : Store) (k : String) : Store :=
  st.filter (fun e => !(e.1 == k))

/-- `VoteExists(ctx, voterID)`: `voteJSON && voteJSON.length > 0` — true iff
a non-empty value is stored under `voterID`. -/
def VoteExists (st : Store) (voterID : String) : Bool :=
  match getState st voterID with
  | some w => valNonempty w
  | none => false

/-- `ReadVote(ctx, voterID)`: returns the stored bytes, or throws
`The vote from voter ${voterID} does not exist` when absent or empty. -/
def ReadVote (st : Store) (voterID : String) : Except String Val :=
  match getState st voterID with
  | some w =>
    if valNonempty w then Except.ok w
    else Except.error ("The vote from voter " ++ voterID ++ " does not exist")
  | none => Except.error ("The vote from voter " ++ voterID ++ " does not exist")

/-- `RegisterVote(ctx, voterID, candidateID, station)`: guarded by
non-existence; stores the canonical encoding of the new vote (modelled by
its decode outcome `Val.record`). -/
def RegisterVote (st : Store) (voterID candidateID station : String) :
    Except String Store :=
  if VoteExists st voterID then
    Except.error ("The vote from voter " ++ voterID ++ " already exists")
  else
    Except.ok (putState st voterID (Val.record ⟨voterID, candidateID, station⟩))

/-- `UpdateVote(ctx, voterID, candidateID, station)`: guarded by existence;
overwrites the stored value with the canonical encoding of the new vote. -/
def UpdateVote (st : Store) (voterID candidateID station : String) :
    Except String Store :=
  if VoteExists st voterID then
    Except.ok (putState st voterID (Val.record ⟨voterID, candidateID, station⟩))
  else
    Except.error ("The vote from voter " ++ voterID ++ " does not exist")

/-- `DeleteVote(ctx, voterID)`: guarded by existence; deletes the key. -/
def DeleteVote (st : Store) (voterID : String) : Except String Store :=
  if VoteExists st voterID then
    Except.ok (deleteState st voterID)
  else
    Except.error ("The vote from voter " ++ voterID ++ " does not exist")

/-- `InitLedger(ctx)`: unconditionally writes the two seed votes, in source
order (`voter1` first, then `voter2`), with no existence check. -/
def InitLedger (st : Store) : Store :=
  putState
    (putState st "voter1" (Val.record ⟨"voter1", "candidate1", "station1"⟩))
    "voter2" (Val.record ⟨"voter2", "candidate2", "station2"⟩)

/-- One step of the `GetVoteStatistics` while-loop on a decoded vote:
`if (!allResults[c]) allResults[c] = 0; allResults[c] += 1`.  The JS object
`allResults` is modelled as an association list in insertion order. -/
def bump : List (String × Nat) → String → List (String × Nat)
  | [], c => [(c, 1)]
  | (k, n) :: t, c => if k = c then (k, n + 1) :: t else (k, n) :: bump t c

/-- The body of the `GetVoteStatistics` while-loop.  Only `JSON.parse`
is inside the `try`: a value that fails to parse is skipped (`continue`).
A parsed record bumps the count of its `CandidateID`; any other parsed
value is dereferenced unprotected at `allResults[vote.CandidateID]` —
for `null` this throws an uncaught `TypeError` (the error string below
stands for it) that aborts the whole scan, and for every other
non-record value the count of the coerced property-key string (such as
`"undefined"`) is bumped. -/
def tallyStep (m : List (String × Nat)) (e : String × Val) :
    Except String (List (String × Nat)) :=
  match e.2 with
  | Val.record v => Except.ok (bump m v.CandidateID)
  | Val.jnull =>
    Except.error "TypeError: cannot read CandidateID of null"
  | Val.other c => Except.ok (bump m c)
  | Val.raw _ => Except.ok m

/-- `GetVoteStatistics(ctx)`: run the tally loop over the whole range,
starting from the empty `allResults` object; an uncaught `TypeError`
thrown by the loop body aborts the operation. -/
def GetVoteStatistics (st : Store) : Except String (List (String × Nat)) :=
  st.foldlM tallyStep []

/-- `GetAllVotes(ctx)`: scan the whole range; for each entry, whatever
`JSON.parse` returned is pushed — the parsed value when parsing succeeds
(a record or not), the raw string when it throws.  Each pushed entry is
the stored value's parse outcome, i.e. its `Val`. -/
def GetAllVotes (st : Store) : List Val :=
  st.foldl (fun acc e => acc ++ [e.2]) []

/-- `DeleteAllVotes(ctx)`: iterate the snapshot of the whole range and
delete every visited key. -/
def DeleteAllVotes (st : Store) : Store :=
  st.foldl (fun s e => deleteState s e.1) st

/-- JSON values as the canonical encoder (`stringify(sortKeysRecursive(v))`)
sees them: strings and objects, the only shapes the contract serializes.
Objects carry their fields in source key order. -/
inductive Json where
  | str : String → Json
  | obj : List (String × Json) → Json

/-- Field order used by the canonical encoder: compare field names. -/
def keyLe (a b : String × Json) : Prop :=
  a.1 ≤ b.1

instance : DecidableRel keyLe :=
  fun a b => inferInstanceAs (Decidable (a.1 ≤ b.1))

instance : IsTotal (String × Json) keyLe :=
  ⟨fun a b => le_total a.1 b.1⟩

instance : IsTrans (String × Json) keyLe :=
  ⟨fun _ _ _ h1 h2 => le_trans h1 h2⟩

mutual
/-- `sortKeysRecursive(v)` from the `sort-keys-recursive` package: sort the
fields of every object, at every nesting level, by field name. -/
def sortKeysRecursive : Json → Json
  | Json.str s => Json.str s
  | Json.obj l => Json.obj (List.insertionSort keyLe (sortFields l))

/-- Canonicalise every field value of an object, keeping the field order. -/
def sortFields : List (String × Json) → List (String × Json)
  | [] => []
  | p :: t => (p.1, sortKeysRecursive p.2) :: sortFields t
end

mutual
/-- `stringify` from `json-stringify-deterministic`: serialize to JSON text
with fixed separators and no incidental whitespace, emitting fields in
order.  (The package also sorts keys while emitting; the contract feeds it
the output of `sortKeysRecursive`, on which that sort is the identity, so
field order at every level is the sorted one either way.) -/
def serialize : Json → String
  | Json.str s => "\"" ++ s ++ "\""
  | Json.obj l => "\x7b" ++ serializeFields l ++ "\x7d"

/-- Comma-separated `"key":value` items of an object body. -/
def serializeFields : List (String × Json) → String
  | [] => ""
  | [p] => "\"" ++ p.1 ++ "\":" ++ serialize p.2
  | p :: q :: t =>
    "\"" ++ p.1 ++ "\":" ++ serialize p.2 ++ "," ++ serializeFields (q :: t)
end

/-- The canonical encoding used by `InitLedger`, `RegisterVote` and
`UpdateVote`: `Buffer.from(stringify(sortKeysRecursive(vote)))`. -/
def encode (j : Json) : String :=
  serialize (sortKeysRecursive j)

mutual
/-- Well-formed record: at every nesting level the field names are
distinct (a JS object literal cannot carry two bindings of one key). -/
def wf : Json → Bool
  | Json.str _ => true
  | Json.obj l => decide ((l.map Prod.fst).Nodup) && wfFields l

/-- All field values of an object are well-formed. -/
def wfFields : List (String × Json) → Bool
  | [] => true
  | p :: t => wf p.2 && wfFields t
end

/-- `Jeq j1 j2`: the two JSON values have identical field values, with the
fields possibly given in different key orders at every nesting level — the
same multiset of field names at each object, and for each shared name the
bound values again related by `Jeq`. -/
inductive Jeq : Json → Json → Prop where
  | str (s : String) : Jeq (Json.str s) (Json.str s)
  | obj (l1 l2 : List (String × Json))
      (hkeys : (l1.map Prod.fst).Perm (l2.map Prod.fst))
      (hval : ∀ k v1 v2, (k, v1) ∈ l1 → (k, v2) ∈ l2 → Jeq v1 v2) :
      Jeq (Json.obj l1) (Json.obj l2)

/-- The object literal built by `RegisterVote`/`UpdateVote`/`InitLedger`,
fields in source order. -/
def voteJson (v : Vote) : Json :=
  Json.obj
    [("VoterID", Json.str v.VoterID),
     ("CandidateID", Json.str v.CandidateID),
     ("Station", Json.str v.Station)]

/-- The bytes `RegisterVote` and `UpdateVote` write for a vote. -/
def encodeVote (v : Vote) : String :=
  encode (voteJson v)

/-- `putState` stores the value under the key. -/
theorem getState_putState_self (st : Store) (k : String) (v : Val) :
    getState (putState st k v) k = some v := by
  induction st with
  | nil => simp [putState, getState]
  | cons e t ih =>
    by_cases h1 : k < e.1
    · simp [putState, h1, getState]
    · by_cases h2 : k = e.1
      · simp [putState, h1, h2, getState]
      · have h3 : ¬(e.1 = k) := fun hh => h2 hh.symm
        simp [putState, h1, h2, getState, h3, ih]

/-- `putState` leaves every other key unchanged. -/
theorem getState_putState_ne (st : Store) (k k' : String) (v : Val)
    (h : k' ≠ k) :
    getState (putState st k v) k' = getState st k' := by
  have hk : ¬(k = k') := fun hh => h hh.symm
  induction st with
  | nil => simp [putState, getState, hk]
  | cons e t ih =>
    by_cases h1 : k < e.1
    · simp [putState, h1, getState, hk]
    · by_cases h2 : k = e.1
      · subst h2; simp [putState, h1, getState, hk]
      · simp [putState, h1, h2, getState, ih]

/-- C4: for a voterID absent from World State (`Exists` is false),
`Register` succeeds, and afterwards `Exists` returns true and `Read`
returns bytes decoding to exactly the registered record. -/
theorem c4_register_absent_succeeds (st : Store) (v c s : String)
    (h : VoteExists st v = false) :
    ∃ st', RegisterVote st v c s = Except.ok st' ∧
      VoteExists st' v = true ∧
      ReadVote st' v = Except.ok (Val.record ⟨v, c, s⟩) := by
  refine ⟨putState st v (Val.record ⟨v, c, s⟩), ?_, ?_, ?_⟩
  · simp [RegisterVote, h]
  · simp [VoteExists, getState_putState_self, valNonempty]
  · simp [ReadVote, getState_putState_self, valNonempty]

/-- C4 witness: register voter `v` into the empty store. -/
theorem c4_register_absent_succeeds_witness :
    VoteExists ([] : Store) "v" = false ∧
    (∃ st', RegisterVote ([] : Store) "v" "c" "s" = Except.ok st' ∧
      VoteExists st' "v" = true ∧
      ReadVote st' "v" = Except.ok (Val.record ⟨"v", "c", "s"⟩)) :=
  ⟨rfl, c4_register_absent_succeeds [] "v" "c" "s" rfl⟩

/-- C5: `Register` on a present voterID fails with the AlreadyExists
error; no store is produced, so World State is unchanged. -/
theorem c5_register_present_fails (st : Store) (v c s : String)
    (h : VoteExists st v = true) :
    RegisterVote st v c s =
      Except.error ("The vote from voter " ++ v ++ " already exists") := by
  simp [RegisterVote, h]

/-- C5 witness: registering voter `a` twice. -/
theorem c5_register_present_fails_witness :
    VoteExists [("a", Val.record ⟨"a", "c", "s"⟩)] "a" = true ∧
    RegisterVote [("a", Val.record ⟨"a", "c", "s"⟩)] "a" "c2" "s2" =
      Except.error ("The vote from voter " ++ "a" ++ " already exists") :=
  ⟨rfl, c5_register_present_fails _ "a" "c2" "s2" rfl⟩

/-- C6: on an absent voterID, `Read`, `Update` and `Delete` each fail with
the NotFound error; none returns a store, so World State is unchanged and
none is a silent no-op. -/
theorem c6_absent_ops_fail (st : Store) (v c s : String)
    (h : VoteExists st v = false) :
    ReadVote st v =
      Except.error ("The vote from voter " ++ v ++ " does not exist") ∧
    UpdateVote st v c s =
      Except.error ("The vote from voter " ++ v ++ " does not exist") ∧
    DeleteVote st v =
      Except.error ("The vote from voter " ++ v ++ " does not exist") := by
  refine ⟨?_, ?_, ?_⟩
  · cases hg : getState st v with
    | none => simp [ReadVote, hg]
    | some w =>
      have hw : valNonempty w = false := by simpa [VoteExists, hg] using h
      simp [ReadVote, hg, hw]
  · simp [UpdateVote, h]
  · simp [DeleteVote, h]

/-- C6 witness: voter `v` in the empty store. -/
theorem c6_absent_ops_fail_witness :
    VoteExists ([] : Store) "v" = false ∧
    (ReadVote ([] : Store) "v" =
      Except.error ("The vote from voter " ++ "v" ++ " does not exist") ∧
    UpdateVote ([] : Store) "v" "c" "s" =
      Except.error ("The vote from voter " ++ "v" ++ " does not exist") ∧
    DeleteVote ([] : Store) "v" =
      Except.error ("The vote from voter " ++ "v" ++ " does not exist")) :=
  ⟨rfl, c6_absent_ops_fail [] "v" "c" "s" rfl⟩

/-- C7: when voterID `v` is stored with record `(v, c1, s1)`, `Update`
succeeds and replaces the value entirely: `Read` then yields exactly
`(v, c2, s2)` — no field of the old record survives — and `v` stays
present. -/
theorem c7_update_replaces (st : Store) (v c1 s1 c2 s2 : String)
    (h : getState st v = some (Val.record ⟨v, c1, s1⟩)) :
    ∃ st', UpdateVote st v c2 s2 = Except.ok st' ∧
      ReadVote st' v = Except.ok (Val.record ⟨v, c2, s2⟩) ∧
      VoteExists st' v = true := by
  have hex : VoteExists st v = true := by simp [VoteExists, h, valNonempty]
  refine ⟨putState st v (Val.record ⟨v, c2, s2⟩), ?_, ?_, ?_⟩
  · simp [UpdateVote, hex]
  · simp [ReadVote, getState_putState_self, valNonempty]
  · simp [VoteExists, getState_putState_self, valNonempty]

/-- C7 witness: update voter `a` from `(c1, s1)` to `(c2, s2)`. -/
theorem c7_update_replaces_witness :
    getState [("a", Val.record ⟨"a", "c1", "s1"⟩)] "a" =
      some (Val.record ⟨"a", "c1", "s1"⟩) ∧
    (∃ st', UpdateVote [("a", Val.record ⟨"a", "c1", "s1"⟩)] "a" "c2" "s2" =
        Except.ok st' ∧
      ReadVote st' "a" = Except.ok (Val.record ⟨"a", "c2", "s2"⟩) ∧
      VoteExists st' "a" = true) :=
  ⟨rfl, c7_update_replaces _ "a" "c1" "s1" "c2" "s2" rfl⟩

/-- C10: `InitLedger` unconditionally (no existence check) writes the two
seed records — overwriting whatever was stored under `voter1`/`voter2` —
and leaves every other key unchanged. -/
theorem c10_initLedger_writes_two (st : Store) :
    getState (InitLedger st) "voter1" =
      some (Val.record ⟨"voter1", "candidate1", "station1"⟩) ∧
    getState (InitLedger st) "voter2" =
      some (Val.record ⟨"voter2", "candidate2", "station2"⟩) ∧
    ∀ k, k ≠ "voter1" → k ≠ "voter2" →
      getState (InitLedger st) k = getState st k := by
  refine ⟨?_, ?_, ?_⟩
  · rw [InitLedger, getState_putState_ne _ _ _ _ (by decide),
      getState_putState_self]
  · rw [InitLedger, getState_putState_self]
  · intro k h1 h2
    rw [InitLedger, getState_putState_ne _ _ _ _ h2,
      getState_putState_ne _ _ _ _ h1]

/-- C10 witness: a store already holding a value under `voter1` and an
unrelated key `x`: `voter1` is overwritten, `x` is untouched. -/
theorem c10_initLedger_writes_two_witness :
    getState (InitLedger [("voter1", Val.raw "junk"), ("x", Val.raw "y")])
        "voter1" =
      some (Val.record ⟨"voter1", "candidate1", "station1"⟩) ∧
    ("x" ≠ "voter1" ∧ "x" ≠ "voter2") ∧
    getState (InitLedger [("voter1", Val.raw "junk"), ("x", Val.raw "y")])
        "x" =
      getState [("voter1", Val.raw "junk"), ("x", Val.raw "y")] "x" := by
  have h := c10_initLedger_writes_two
    [("voter1", Val.raw "junk"), ("x", Val.raw "y")]
  exact ⟨h.1, ⟨by decide, by decide⟩, h.2.2 "x" (by decide) (by decide)⟩

/-- Pushing every value of a list onto an accumulator. -/
theorem foldl_push_eq (l : List (String × Val)) :
    ∀ acc : List Val,
      l.foldl (fun a e => a ++ [e.2]) acc = acc ++ l.map Prod.snd := by
  induction l with
  | nil => intro acc; simp
  | cons e t ih => intro acc; simp [ih]

/-- C8 (amended): `GetAllVotes` never aborts and returns exactly one
entry per stored key, in iteration order: the parsed value where the
value parses — the decoded record when it is one, the parsed non-record
value otherwise — and the raw string itself only where `JSON.parse`
throws (`Val` is the parse outcome); it returns no store, so World State
is untouched.  The claim as stated (raw string substituted whenever the
value does not decode as a Record) fails on parse-success non-records;
see the counterexample. -/
theorem c8_getAllVotes_entries (st : Store) :
    GetAllVotes st = st.map Prod.snd ∧
    ∀ (pre post : Store) (k s : String),
      GetAllVotes (pre ++ (k, Val.raw s) :: post) =
        GetAllVotes pre ++ Val.raw s :: GetAllVotes post := by
  refine ⟨foldl_push_eq st [], ?_⟩
  intro pre post k s
  simp [GetAllVotes, foldl_push_eq]

/-- Folding the delete loop over any snapshot list whose keys cover the
current store empties it. -/
theorem foldl_delete_eq_nil (l : List (String × Val)) :
    ∀ s : Store, (∀ e, e ∈ s → e.1 ∈ l.map Prod.fst) →
      l.foldl (fun s e => deleteState s e.1) s = [] := by
  induction l with
  | nil =>
    intro s hs
    cases s with
    | nil => rfl
    | cons a t => exact absurd (hs a (List.mem_cons_self a t)) (by simp)
  | cons p t ih =>
    intro s hs
    simp only [List.foldl_cons]
    apply ih
    intro e he
    have he' : e ∈ s ∧ ¬(e.1 == p.1) = true := by
      simpa [deleteState, List.mem_filter] using he
    have hk : e.1 ∈ (p :: t).map Prod.fst := hs e he'.1
    have hne : e.1 ≠ p.1 := by simpa using he'.2
    simpa [hne] using hk

/-- C9: `DeleteAllVotes` empties the store: afterwards `GetAllVotes` yields
the empty sequence and `GetVoteStatistics` the empty mapping; and it is
idempotent — a second run on the now-empty store succeeds and leaves it
empty. -/
theorem c9_deleteAll_empties (st : Store) :
    DeleteAllVotes st = ([] : Store) ∧
    GetAllVotes (DeleteAllVotes st) = [] ∧
    GetVoteStatistics (DeleteAllVotes st) = Except.ok [] ∧
    DeleteAllVotes (DeleteAllVotes st) = ([] : Store) := by
  have h : DeleteAllVotes st = ([] : Store) :=
    foldl_delete_eq_nil st st
      (fun e he => List.mem_map_of_mem Prod.fst he)
  refine ⟨h, ?_, ?_, ?_⟩ <;> rw [h] <;> rfl

/-- `sortFields` canonicalises each field value in place. -/
theorem sortFields_eq_map (l : List (String × Json)) :
    sortFields l = l.map (fun p => (p.1, sortKeysRecursive p.2)) := by
  induction l with
  | nil => rfl
  | cons p t ih => simp [sortFields, ih]

/-- `sortFields` keeps the field names, in order. -/
theorem keys_sortFields (l : List (String × Json)) :
    (sortFields l).map Prod.fst = l.map Prod.fst := by
  rw [sortFields_eq_map, List.map_map]
  rfl

/-- Every field value of a well-formed object is well-formed. -/
theorem wfFields_mem {l : List (String × Json)} {k : String} {v : Json}
    (hw : wfFields l = true) (hm : (k, v) ∈ l) : wf v = true := by
  induction l with
  | nil => cases hm
  | cons p t ih =>
    simp only [wfFields, Bool.and_eq_true] at hw
    rcases List.mem_cons.mp hm with h | h
    · have : v = p.2 := congrArg Prod.snd h
      rw [this]; exact hw.1
    · exact ih hw.2 h

/-- Two key-sorted pair lists with no duplicate keys that are permutations
of each other are equal: with distinct keys the key-sorted order is unique,
whatever stable sort produced it. -/
theorem sorted_keyed_eq :
    ∀ m1 m2 : List (String × Json), m1.Perm m2 →
      m1.Pairwise keyLe → m2.Pairwise keyLe →
      (m1.map Prod.fst).Nodup → m1 = m2 := by
  intro m1
  induction m1 with
  | nil =>
    intro m2 hp _ _ _
    exact (hp.symm.eq_nil).symm
  | cons a t ih =>
    intro m2 hp hs1 hs2 hnd
    cases m2 with
    | nil => exact absurd hp.eq_nil (by simp)
    | cons b t2 =>
      have hnd' : a.1 ∉ t.map Prod.fst ∧ (t.map Prod.fst).Nodup := by
        simpa [List.nodup_cons] using hnd
      have hab : a = b := by
        have ha2 : a ∈ b :: t2 := hp.subset (List.mem_cons_self a t)
        rcases List.mem_cons.mp ha2 with h | h
        · exact h
        · have hb1 : b ∈ a :: t := hp.symm.subset (List.mem_cons_self b t2)
          rcases List.mem_cons.mp hb1 with h2 | h2
          · exact h2.symm
          · have h3 : keyLe b a := List.rel_of_pairwise_cons hs2 h
            have h4 : keyLe a b := List.rel_of_pairwise_cons hs1 h2
            have h5 : b.1 = a.1 := le_antisymm h3 h4
            exact absurd (h5 ▸ List.mem_map_of_mem Prod.fst h2) hnd'.1
      subst hab
      have ht : t.Perm t2 := hp.cons_inv
      rw [ih t2 ht (List.Pairwise.of_cons hs1) (List.Pairwise.of_cons hs2)
        hnd'.2]

/-- If the two objects have the same keys and canonically-equal values at
each shared key, every canonicalised field of the first appears among the
canonicalised fields of the second. -/
theorem mem_sortFields_mono
    (l1 l2 : List (String × Json))
    (hkeys : (l1.map Prod.fst).Perm (l2.map Prod.fst))
    (hcanon : ∀ k v1 v2, (k, v1) ∈ l1 → (k, v2) ∈ l2 →
      sortKeysRecursive v1 = sortKeysRecursive v2)
    (p : String × Json) (hp : p ∈ sortFields l1) : p ∈ sortFields l2 := by
  rw [sortFields_eq_map] at hp ⊢
  rcases List.mem_map.mp hp with ⟨q, hq, hqe⟩
  have hk2 : q.1 ∈ l2.map Prod.fst :=
    hkeys.mem_iff.mp (List.mem_map_of_mem Prod.fst hq)
  rcases List.mem_map.mp hk2 with ⟨q2, hq2, hk⟩
  have hmem2 : (q.1, q2.2) ∈ l2 := by rw [← hk]; exact hq2
  have hc : sortKeysRecursive q.2 = sortKeysRecursive q2.2 :=
    hcanon q.1 q.2 q2.2 hq hmem2
  refine List.mem_map.mpr ⟨q2, hq2, ?_⟩
  rw [← hqe]
  show (q2.1, sortKeysRecursive q2.2) = (q.1, sortKeysRecursive q.2)
  rw [hk, hc]

/-- Canonicalising the fields of two objects that differ only in key order
(and in the sub-key-orders of their values) yields permuted field lists. -/
theorem sortFields_perm
    (l1 l2 : List (String × Json))
    (hkeys : (l1.map Prod.fst).Perm (l2.map Prod.fst))
    (hnd1 : (l1.map Prod.fst).Nodup) (hnd2 : (l2.map Prod.fst).Nodup)
    (hcanon : ∀ k v1 v2, (k, v1) ∈ l1 → (k, v2) ∈ l2 →
      sortKeysRecursive v1 = sortKeysRecursive v2) :
    (sortFields l1).Perm (sortFields l2) := by
  have hn1 : ((sortFields l1).map Prod.fst).Nodup := by
    rw [keys_sortFields]; exact hnd1
  have hn2 : ((sortFields l2).map Prod.fst).Nodup := by
    rw [keys_sortFields]; exact hnd2
  refine (List.perm_ext_iff_of_nodup (List.Nodup.of_map Prod.fst hn1)
    (List.Nodup.of_map Prod.fst hn2)).mpr ?_
  intro p
  constructor
  · exact mem_sortFields_mono l1 l2 hkeys hcanon p
  · exact mem_sortFields_mono l2 l1 hkeys.symm
      (fun k v2 v1 h2 h1 => (hcanon k v1 v2 h1 h2).symm) p

/-- Canonicalisation (`sortKeysRecursive`) identifies any two well-formed
records with the same field values in different key orders. -/
theorem canon_eq_of_jeq {j1 j2 : Json} (h : Jeq j1 j2) :
    wf j1 = true → wf j2 = true →
    sortKeysRecursive j1 = sortKeysRecursive j2 := by
  induction h with
  | str s => intro _ _; rfl
  | obj l1 l2 hkeys hval ih =>
    intro h1 h2
    simp only [wf, Bool.and_eq_true, decide_eq_true_eq] at h1 h2
    obtain ⟨hnd1, hwf1⟩ := h1
    obtain ⟨hnd2, hwf2⟩ := h2
    have hcanon : ∀ k v1 v2, (k, v1) ∈ l1 → (k, v2) ∈ l2 →
        sortKeysRecursive v1 = sortKeysRecursive v2 := by
      intro k v1 v2 m1 m2
      exact ih k v1 v2 m1 m2 (wfFields_mem hwf1 m1) (wfFields_mem hwf2 m2)
    have hsf : (sortFields l1).Perm (sortFields l2) :=
      sortFields_perm l1 l2 hkeys hnd1 hnd2 hcanon
    have hkey1 :
        ((List.insertionSort keyLe (sortFields l1)).map Prod.fst).Nodup := by
      have hp := (List.perm_insertionSort keyLe (sortFields l1)).map Prod.fst
      refine hp.nodup_iff.mpr ?_
      rw [keys_sortFields]; exact hnd1
    have hp12 : (List.insertionSort keyLe (sortFields l1)).Perm
        (List.insertionSort keyLe (sortFields l2)) :=
      ((List.perm_insertionSort keyLe (sortFields l1)).trans hsf).trans
        (List.perm_insertionSort keyLe (sortFields l2)).symm
    have heq : List.insertionSort keyLe (sortFields l1) =
        List.insertionSort keyLe (sortFields l2) :=
      sorted_keyed_eq _ _ hp12 (List.sorted_insertionSort keyLe _)
        (List.sorted_insertionSort keyLe _) hkey1
    simp only [sortKeysRecursive]
    rw [heq]

/-- C3: the canonical encoding used by `RegisterVote` and `UpdateVote`
(`stringify(sortKeysRecursive(vote))`) is byte-identical on any two
well-formed records with equal field values given in different key orders,
at every nesting level; `encode` is a total Lean function, so encoding
never fails on a well-formed record. -/
theorem c3_encode_deterministic (j1 j2 : Json)
    (h1 : wf j1 = true) (h2 : wf j2 = true) (h : Jeq j1 j2) :
    encode j1 = encode j2 :=
  congrArg serialize (canon_eq_of_jeq h h1 h2)

/-- C3 witness: the same two string fields given in the two orders. -/
theorem c3_encode_deterministic_witness :
    wf (Json.obj [("b", Json.str "2"), ("a", Json.str "1")]) = true ∧
    wf (Json.obj [("a", Json.str "1"), ("b", Json.str "2")]) = true ∧
    encode (Json.obj [("b", Json.str "2"), ("a", Json.str "1")]) =
      encode (Json.obj [("a", Json.str "1"), ("b", Json.str "2")]) := by
  have hw1 : wf (Json.obj [("b", Json.str "2"), ("a", Json.str "1")]) =
      true := by
    simp [wf, wfFields]
  have hw2 : wf (Json.obj [("a", Json.str "1"), ("b", Json.str "2")]) =
      true := by
    simp [wf, wfFields]
  have hj : Jeq (Json.obj [("b", Json.str "2"), ("a", Json.str "1")])
      (Json.obj [("a", Json.str "1"), ("b", Json.str "2")]) := by
    refine Jeq.obj _ _ ?_ ?_
    · simpa using List.Perm.swap "a" "b" []
    · intro k v1 v2 m1 m2
      simp only [List.mem_cons, List.not_mem_nil, or_false,
        Prod.mk.injEq] at m1 m2
      rcases m1 with ⟨hk, hv⟩ | ⟨hk, hv⟩ <;> subst hk <;> subst hv
      · rcases m2 with ⟨hk2, hv2⟩ | ⟨hk2, hv2⟩
        · exact absurd hk2 (by decide)
        · subst hv2; exact Jeq.str _
      · rcases m2 with ⟨hk2, hv2⟩ | ⟨hk2, hv2⟩
        · subst hv2; exact Jeq.str _
        · exact absurd hk2 (by decide)
  exact ⟨hw1, hw2, c3_encode_deterministic _ _ hw1 hw2 hj⟩

/-- C1 (code bug): the claim fails on the code.  The `try` in
`GetVoteStatistics` covers only `JSON.parse`, so a single stored value
that does not decode as a Record can abort the whole tally: on stored
bytes `null` the unprotected `vote.CandidateID` dereference throws an
uncaught `TypeError` and the scan aborts, discarding even the decodable
records around it; and a stored value that parses to a non-record (such
as an empty object) does contribute a count, under the coerced key
`"undefined"`. -/
theorem c1_tally_aborts_on_null :
    GetVoteStatistics
        [("a", Val.record ⟨"a", "cA", "s1"⟩), ("b", Val.jnull),
         ("c", Val.record ⟨"c", "cB", "s2"⟩)] =
      Except.error "TypeError: cannot read CandidateID of null" ∧
    GetVoteStatistics [("k", Val.other "undefined")] =
      Except.ok [("undefined", 1)] :=
  ⟨rfl, rfl⟩

/-- C2 (code bug): the claim fails on the code.  On a store holding one
value that parses to a non-record JSON value, the returned mapping gains
the key `"undefined"`, which is not the `CandidateID` of any decodable
Record in the store; and on a store holding the bytes `null`,
`GetVoteStatistics` throws and returns no mapping at all. -/
theorem c2_tally_gains_undefined_key :
    GetVoteStatistics
        [("a", Val.record ⟨"a", "cA", "s1"⟩), ("k", Val.other "undefined")] =
      Except.ok [("cA", 1), ("undefined", 1)] ∧
    GetVoteStatistics [("k", Val.jnull)] =
      Except.error "TypeError: cannot read CandidateID of null" :=
  ⟨rfl, rfl⟩

/-- C8 counterexample: the stored bytes `\x7b\x7d` (an empty JSON
object) do not decode as a Record, yet `GetAllVotes` pushes the parse
outcome `Val.other "undefined"` — the parsed object — and not the raw
string substitution `Val.raw "\x7b\x7d"` that the claim as stated
predicts for that entry. -/
theorem c8_no_raw_substitution_counterexample :
    GetAllVotes [("k", Val.other "undefined")] = [Val.other "undefined"] ∧
    Val.other "undefined" ≠ Val.raw "\x7b\x7d" :=
  ⟨rfl, by decide⟩
